import Mathlib

/-!
Shallow embedding of the verco TUI core (orhun/verco) and proofs about it.

The Rust sources embedded here are `src/mode.rs`, `src/mode/revision_details.rs`,
`src/tui.rs` and `old/tui.rs`.  Rust `usize` values are modelled as `Nat`:
every arithmetic operation performed by the embedded code is either a
`saturating_sub` (Nat subtraction), an addition that the surrounding clamp
keeps far below `2^64`, or a `min` against a clamp, so no wrap-around is
reachable and `Nat` is a faithful model.  Rust `String` buffers edited by
`ReadLine` are modelled as `List Char` together with explicit UTF-8 byte
lengths (`Char.utf8Size`), which is exactly the information the byte-index
computations of the source manipulate.
-/

namespace Verco

/-- `usize::MAX`, used literally by the source (`Key::End` handlers). -/
def usizeMax : Nat := 2 ^ 64 - 1

/-- Modelled from the spec: the key-event type (`platform.rs` is not under
`src/`); constructors are the ones the embedded handlers pattern-match on
(`Up`, `Down`, `Home`, `End`, `PageUp`, `PageDown`, `Tab`, `Backspace`,
`Esc`, `Enter`, `Char`, `Ctrl`). -/
inductive Key where
  | Up
  | Down
  | Home
  | End
  | PageUp
  | PageDown
  | Tab
  | Backspace
  | Esc
  | Enter
  | Char (c : Char)
  | Ctrl (c : Char)
  deriving DecidableEq, Repr

/-- Number of lines of a string as computed by Rust `str::lines().count()`:
segments separated by `\n`, with no empty segment after a trailing newline. -/
def rustLineCount (s : String) : Nat :=
  if s = "" then 0
  else (s.splitOn "\n").length - (if s.endsWith "\n" then 1 else 0)

/-- `Output` widget from `src/mode.rs`: text, derived line count, scroll offset. -/
structure Output where
  text : String
  line_count : Nat
  scroll : Nat
  deriving DecidableEq, Repr

namespace Output

/-- `Output::set` from `src/mode.rs`: replace the text, recompute the line
count, reset the scroll offset to 0. -/
def set (_o : Output) (output : String) : Output :=
  { text := output, line_count := rustLineCount output, scroll := 0 }

/-- `Output::on_key` from `src/mode.rs`: navigation keys move the scroll
offset, which is then clamped to `line_count.saturating_sub(available_height)`. -/
def on_key (o : Output) (available_height : Nat) (key : Key) : Output :=
  let half_height := available_height / 2
  let scroll :=
    match key with
    | .Down | .Ctrl 'n' | .Char 'j' => o.scroll + 1
    | .Up | .Ctrl 'p' | .Char 'k' => o.scroll - 1
    | .Ctrl 'h' | .Home => 0
    | .Ctrl 'e' | .End => usizeMax
    | .Ctrl 'd' | .PageDown => o.scroll + half_height
    | .Ctrl 'u' | .PageUp => o.scroll - half_height
    | _ => o.scroll
  { o with scroll := min (o.line_count - available_height) scroll }

/-- Folding a key sequence through `Output::on_key` at a fixed height. -/
def applyKeys (o : Output) (available_height : Nat) (ks : List Key) : Output :=
  ks.foldl (fun acc k => acc.on_key available_height k) o

end Output

theorem output_on_key_scroll_le (o : Output) (h : Nat) (k : Key) :
    (o.on_key h k).scroll ≤ o.line_count - h := by
  simp only [Output.on_key]
  exact Nat.min_le_left _ _

theorem output_on_key_line_count (o : Output) (h : Nat) (k : Key) :
    (o.on_key h k).line_count = o.line_count := rfl

theorem output_applyKeys_line_count (o : Output) (h : Nat) (ks : List Key) :
    (o.applyKeys h ks).line_count = o.line_count := by
  induction ks generalizing o with
  | nil => rfl
  | cons k ks ih =>
      simp only [Output.applyKeys, List.foldl_cons] at *
      rw [ih (o.on_key h k), output_on_key_line_count]

theorem output_applyKeys_concat (o : Output) (h : Nat) (ks : List Key) (k : Key) :
    o.applyKeys h (ks ++ [k]) = (o.applyKeys h ks).on_key h k := by
  simp [Output.applyKeys, List.foldl_append]

/-- C2: starting from any scroll offset satisfying the invariant, after every
key of any key sequence fed to `Output::on_key` at any available height the
scroll offset satisfies `0 ≤ scroll ≤ max 0 (line_count - height)` (Nat
subtraction is exactly `max 0 (· - ·)`), and `Output::set` re-establishes the
invariant by resetting the scroll offset to 0. -/
theorem output_scroll_invariant (o : Output) (h : Nat) (ks : List Key)
    (hstart : o.scroll ≤ o.line_count - h) :
    (∀ i, i < ks.length →
      (o.applyKeys h (ks.take (i + 1))).scroll ≤
        (o.applyKeys h (ks.take (i + 1))).line_count - h) ∧
    (∀ s, (o.set s).scroll = 0 ∧ (o.set s).scroll ≤ (o.set s).line_count - h) := by
  constructor
  · intro i hi
    have htake : ks.take (i + 1) = ks.take i ++ [ks[i]] := by
      rw [List.take_succ, List.getElem?_eq_getElem hi]
      rfl
    rw [htake, output_applyKeys_concat, output_on_key_line_count]
    exact output_on_key_scroll_le _ h _
  · intro s
    exact ⟨rfl, Nat.zero_le _⟩

/-- C2 witness: the invariant theorem applied at a concrete output, height
and key sequence. -/
theorem output_scroll_invariant_witness :
    ((⟨"a\nb\nc", 3, 1⟩ : Output).applyKeys 2 ([.Down, .End].take 2)).scroll ≤
      ((⟨"a\nb\nc", 3, 1⟩ : Output).applyKeys 2 ([.Down, .End].take 2)).line_count - 2 := by
  have h := output_scroll_invariant ⟨"a\nb\nc", 3, 1⟩ 2 [.Down, .End] (by decide)
  exact h.1 1 (by decide)

/-- `SelectMenuAction` from `src/mode.rs`. -/
inductive SelectMenuAction where
  | None
  | Toggle (index : Nat)
  | ToggleAll
  deriving DecidableEq, Repr

/-- `SelectMenu` widget from `src/mode.rs`: cursor index and scroll offset. -/
structure SelectMenu where
  cursor : Nat
  scroll : Nat
  deriving DecidableEq, Repr

namespace SelectMenu

/-- `SelectMenu::saturate_cursor` from `src/mode.rs`. -/
def saturate_cursor (m : SelectMenu) (entries_len : Nat) : SelectMenu :=
  { m with cursor := min (entries_len - 1) m.cursor }

/-- `SelectMenu::on_key` from `src/mode.rs`: move the cursor, clamp it to the
entries length, slide the scroll window to keep the cursor visible, and report
a toggle action when space or `a` was pressed. -/
def on_key (m : SelectMenu) (entries_len available_height : Nat) (key : Key) :
    SelectMenu × SelectMenuAction :=
  let half_height := available_height / 2
  let cursor :=
    match key with
    | .Down | .Ctrl 'n' | .Char 'j' => m.cursor + 1
    | .Up | .Ctrl 'p' | .Char 'k' => m.cursor - 1
    | .Ctrl 'h' | .Home => 0
    | .Ctrl 'e' | .End => usizeMax
    | .Ctrl 'd' | .PageDown => m.cursor + half_height
    | .Ctrl 'u' | .PageUp => m.cursor - half_height
    | _ => m.cursor
  let cursor := min (entries_len - 1) cursor
  let scroll :=
    if cursor < m.scroll then cursor
    else if cursor ≥ m.scroll + available_height then cursor + 1 - available_height
    else m.scroll
  let action :=
    match key with
    | .Char ' ' => if cursor < entries_len then SelectMenuAction.Toggle cursor
                   else SelectMenuAction.None
    | .Char 'a' => SelectMenuAction.ToggleAll
    | _ => SelectMenuAction.None
  (⟨cursor, scroll⟩, action)

/-- Folding a key sequence through `SelectMenu::on_key` at fixed entry count
and height, keeping the menu state. -/
def applyKeys (m : SelectMenu) (entries_len available_height : Nat)
    (ks : List Key) : SelectMenu :=
  ks.foldl (fun acc k => (acc.on_key entries_len available_height k).1) m

end SelectMenu

theorem select_menu_on_key_cursor_le (m : SelectMenu) (n h : Nat) (k : Key) :
    (m.on_key n h k).1.cursor ≤ n - 1 := by
  simp only [SelectMenu.on_key]
  exact Nat.min_le_left _ _

theorem select_menu_on_key_window (m : SelectMenu) (n h : Nat) (k : Key)
    (hh : 1 ≤ h) :
    (m.on_key n h k).1.scroll ≤ (m.on_key n h k).1.cursor ∧
      (m.on_key n h k).1.cursor < (m.on_key n h k).1.scroll + h := by
  simp only [SelectMenu.on_key]
  split_ifs <;> omega

theorem select_menu_applyKeys_concat (m : SelectMenu) (n h : Nat)
    (ks : List Key) (k : Key) :
    m.applyKeys n h (ks ++ [k]) = ((m.applyKeys n h ks).on_key n h k).1 := by
  simp [SelectMenu.applyKeys, List.foldl_append]

/-- C3 counterexample: with available height 0 (a viewport fully consumed by
reserved lines) the cursor cannot lie in the empty visible window
`[scroll, scroll + 0)`: one Down key on a one-entry menu yields cursor 0 and
scroll 1. -/
theorem select_menu_window_counterexample :
    ((SelectMenu.on_key ⟨0, 0⟩ 1 0 .Down).1.cursor = 0 ∧
      (SelectMenu.on_key ⟨0, 0⟩ 1 0 .Down).1.scroll = 1) ∧
    ¬((SelectMenu.on_key ⟨0, 0⟩ 1 0 .Down).1.scroll ≤
        (SelectMenu.on_key ⟨0, 0⟩ 1 0 .Down).1.cursor ∧
      (SelectMenu.on_key ⟨0, 0⟩ 1 0 .Down).1.cursor <
        (SelectMenu.on_key ⟨0, 0⟩ 1 0 .Down).1.scroll + 0) := by
  decide

/-- C3 (amended): for every entries length, every starting menu state and
every key sequence, after each key the cursor satisfies
`0 ≤ cursor ≤ max 0 (N - 1)` for any available height, and whenever the
available height is at least 1 the cursor additionally lies in the visible
window `[scroll, scroll + height)`.  (At height 0 the window is empty, so the
window half of the original claim cannot hold there.) -/
theorem select_menu_invariant (m : SelectMenu) (n h : Nat) (ks : List Key) :
    ∀ i, i < ks.length →
      (m.applyKeys n h (ks.take (i + 1))).cursor ≤ n - 1 ∧
      (1 ≤ h →
        (m.applyKeys n h (ks.take (i + 1))).scroll ≤
          (m.applyKeys n h (ks.take (i + 1))).cursor ∧
        (m.applyKeys n h (ks.take (i + 1))).cursor <
          (m.applyKeys n h (ks.take (i + 1))).scroll + h) := by
  intro i hi
  have htake : ks.take (i + 1) = ks.take i ++ [ks[i]] := by
    rw [List.take_succ, List.getElem?_eq_getElem hi]
    rfl
  rw [htake, select_menu_applyKeys_concat]
  exact ⟨select_menu_on_key_cursor_le _ n h _,
    fun hh => select_menu_on_key_window _ n h _ hh⟩

/-- C3 witness: the amended invariant applied at a concrete menu, entries
length 3, height 2 and a concrete key sequence, with both hypotheses
discharged. -/
theorem select_menu_invariant_witness :
    (((⟨0, 0⟩ : SelectMenu).applyKeys 3 2 ([.Down, .Down].take 2)).cursor ≤ 3 - 1) ∧
    (((⟨0, 0⟩ : SelectMenu).applyKeys 3 2 ([.Down, .Down].take 2)).scroll ≤
        ((⟨0, 0⟩ : SelectMenu).applyKeys 3 2 ([.Down, .Down].take 2)).cursor ∧
      ((⟨0, 0⟩ : SelectMenu).applyKeys 3 2 ([.Down, .Down].take 2)).cursor <
        ((⟨0, 0⟩ : SelectMenu).applyKeys 3 2 ([.Down, .Down].take 2)).scroll + 2) := by
  have h := select_menu_invariant ⟨0, 0⟩ 3 2 [.Down, .Down] 1 (by decide)
  exact ⟨h.1, h.2 (by decide)⟩

/-- `is_word` helper local to `ReadLine::on_key` (`src/mode.rs`): alphanumeric
or underscore.  Rust `char::is_alphanumeric` is Unicode-aware; it is modelled
with the ASCII `Char.isAlphanum`, which agrees with it on all ASCII input (the
concrete claims are settled on ASCII buffers, and the boundary-safety theorem
holds for every classifier). -/
def is_word (c : Char) : Bool := c.isAlphanum || c == '_'

/-- Rust `char::is_ascii_whitespace`. -/
def is_ascii_whitespace (c : Char) : Bool :=
  c == ' ' || c == '\t' || c == '\n' || c == '\r' || c == '\x0C'

/-- Total UTF-8 byte length of a character buffer (Rust `str::len`). -/
def utf8Len (cs : List Char) : Nat := (cs.map Char.utf8Size).sum

/-- The `rfind_boundary` helper of `ReadLine::on_key`, acting on the reversed
remaining buffer: Rust walks the `Chars` iterator backwards with `rfind`; on a
hit it returns `chars.as_str().len() + c.len_utf8()`, the byte index just
after the found character, and 0 otherwise. -/
def rfindBoundaryAux (f : Char → Bool) : List Char → Nat
  | [] => 0
  | c :: rest =>
      if f c then utf8Len rest.reverse + c.utf8Size else rfindBoundaryAux f rest

/-- `rfind_boundary(chars, f)` from `ReadLine::on_key`, where `chars` is the
buffer with its last character already popped. -/
def rfind_boundary (cs : List Char) (f : Char → Bool) : Nat :=
  rfindBoundaryAux f cs.reverse

/-- The three-way predicate chosen by the `Ctrl('w')` branch of
`ReadLine::on_key`, as a function of the character immediately left of the
cursor. -/
def ctrl_w_pred (c : Char) : Char → Bool :=
  if is_word c then fun x => !(is_word x)
  else if is_ascii_whitespace c then fun x => is_word x || !(is_ascii_whitespace x)
  else fun x => is_word x || is_ascii_whitespace x

/-- Byte index passed to `String::truncate` by `ReadLine::on_key` for the
given key (`none` when the branch taken performs no truncation). -/
def readLineTruncIndex (input : List Char) (key : Key) : Option Nat :=
  match key with
  | .Home | .Ctrl 'u' => none
  | .Ctrl 'w' =>
      match input.getLast? with
      | some c => some (rfind_boundary input.dropLast (ctrl_w_pred c))
      | none => none
  | .Backspace | .Ctrl 'h' =>
      match input.getLast? with
      | some _ => some (utf8Len input.dropLast)
      | none => none
  | _ => none

/-- Character-level effect of the `Ctrl('w')` branch: truncating at
`rfind_boundary` keeps the longest prefix of the popped buffer that ends at
the last character satisfying the predicate. -/
def ctrl_w (input : List Char) : List Char :=
  match input.getLast? with
  | none => input
  | some c =>
      ((input.dropLast.reverse).dropWhile fun x => !(ctrl_w_pred c x)).reverse

namespace ReadLine

/-- `ReadLine::on_key` from `src/mode.rs`, acting on the character buffer. -/
def on_key (input : List Char) (key : Key) : List Char :=
  match key with
  | .Home | .Ctrl 'u' => []
  | .Ctrl 'w' => ctrl_w input
  | .Backspace | .Ctrl 'h' => input.dropLast
  | .Char c => input ++ [c]
  | _ => input

end ReadLine

theorem utf8Len_append (a b : List Char) :
    utf8Len (a ++ b) = utf8Len a + utf8Len b := by
  simp [utf8Len]

theorem utf8Len_reverse (l : List Char) : utf8Len l.reverse = utf8Len l := by
  induction l with
  | nil => rfl
  | cons c rest ih =>
      rw [List.reverse_cons, utf8Len_append, ih]
      simp only [utf8Len, List.map_cons, List.map_nil, List.sum_cons, List.sum_nil]
      omega

theorem rfindBoundaryAux_eq (f : Char → Bool) (rcs : List Char) :
    rfindBoundaryAux f rcs = utf8Len ((rcs.dropWhile fun x => !(f x)).reverse) := by
  induction rcs with
  | nil => rfl
  | cons c rest ih =>
      by_cases hc : f c
      · simp only [rfindBoundaryAux, hc, if_true, List.dropWhile_cons,
          Bool.not_true, Bool.false_eq_true, if_false, List.reverse_cons,
          utf8Len_append, utf8Len_reverse]
        simp only [utf8Len, List.map_cons, List.map_nil, List.sum_cons,
          List.sum_nil]
        omega
      · simp only [rfindBoundaryAux, hc, if_false, List.dropWhile_cons,
          Bool.not_false, ih]
        simp

theorem dropWhile_reverse_is_take (g : Char → Bool) (cs : List Char) :
    ∃ j, j ≤ cs.length ∧ (cs.reverse.dropWhile g).reverse = cs.take j := by
  set r := (cs.reverse.dropWhile g).reverse with hr
  set t := (cs.reverse.takeWhile g).reverse with ht
  have hcs : r ++ t = cs := by
    rw [hr, ht, ← List.reverse_append, List.takeWhile_append_dropWhile,
      List.reverse_reverse]
  refine ⟨r.length, ?_, ?_⟩
  · have hlen := congrArg List.length hcs
    simp only [List.length_append] at hlen
    omega
  · conv_rhs => rw [← hcs]
    exact (List.take_left _ _).symm

theorem ctrl_w_is_take (input : List Char) (c : Char)
    (h : input.getLast? = some c) :
    ∃ j, j ≤ input.length ∧ ctrl_w input = input.take j ∧
      rfind_boundary input.dropLast (ctrl_w_pred c) = utf8Len (input.take j) := by
  obtain ⟨j, hj, hr⟩ :=
    dropWhile_reverse_is_take (fun x => !(ctrl_w_pred c x)) input.dropLast
  have hlen : input.dropLast.length = input.length - 1 := List.length_dropLast input
  have hjlen : j ≤ input.length - 1 := hlen ▸ hj
  have htake : input.dropLast.take j = input.take j := by
    rw [List.dropLast_eq_take, List.take_take, Nat.min_eq_left hjlen]
  refine ⟨j, by omega, ?_, ?_⟩
  · rw [ctrl_w, h]
    dsimp only
    rw [hr, htake]
  · rw [rfind_boundary, rfindBoundaryAux_eq, hr, htake]

/-- C10: for every input buffer (arbitrary Unicode characters) and every key,
whenever the Backspace or Ctrl-w branch of `ReadLine::on_key` computes a
truncation byte index, that index is the UTF-8 length of a character prefix of
the buffer — i.e. it falls on a UTF-8 character boundary, the `truncate` call
cannot panic, and the buffer after the key is exactly that character prefix
(hence valid UTF-8). -/
theorem read_line_truncation_safe (input : List Char) (key : Key) (n : Nat)
    (h : readLineTruncIndex input key = some n) :
    ∃ j, j ≤ input.length ∧ n = utf8Len (input.take j) ∧
      ReadLine.on_key input key = input.take j := by
  unfold readLineTruncIndex at h
  split at h
  · exact Option.noConfusion h
  · exact Option.noConfusion h
  · split at h
    · rename_i c hc
      obtain ⟨j, hj, hw, hb⟩ := ctrl_w_is_take input c hc
      injection h with h'
      subst h'
      exact ⟨j, hj, hb, by simpa [ReadLine.on_key] using hw⟩
    · exact Option.noConfusion h
  · split at h
    · injection h with h'
      subst h'
      refine ⟨input.length - 1, by omega, ?_, ?_⟩
      · rw [List.dropLast_eq_take]
      · simpa [ReadLine.on_key] using List.dropLast_eq_take input
    · exact Option.noConfusion h
  · split at h
    · injection h with h'
      subst h'
      refine ⟨input.length - 1, by omega, ?_, ?_⟩
      · rw [List.dropLast_eq_take]
      · simpa [ReadLine.on_key] using List.dropLast_eq_take input
    · exact Option.noConfusion h
  · exact Option.noConfusion h

/-- C10 witness: the truncation-safety theorem applied to the multi-byte
buffer `a→b` with Ctrl-w pressed; the computed byte index 4 is the UTF-8
length of the two-character prefix. -/
theorem read_line_truncation_safe_witness :
    ∃ j, j ≤ (['a', '→', 'b'] : List Char).length ∧
      4 = utf8Len ((['a', '→', 'b'] : List Char).take j) ∧
      ReadLine.on_key ['a', '→', 'b'] (.Ctrl 'w') =
        (['a', '→', 'b'] : List Char).take j :=
  read_line_truncation_safe ['a', '→', 'b'] (.Ctrl 'w') 4 (by decide)

/-- C6 counterexample: after the first Ctrl-w press on `hello world` the
buffer is `hello `, but the second press stops at (and keeps) the word
`hello`, so it does not yield the empty string claimed. -/
theorem read_line_second_ctrl_w_counterexample :
    ReadLine.on_key (ReadLine.on_key "hello world".toList (.Ctrl 'w')) (.Ctrl 'w') =
      "hello".toList ∧
    "hello".toList ≠ ("" : String).toList := by
  decide

/-- C6 (amended): with the buffer `hello world` and the cursor at the end,
one Ctrl-w press yields `hello ` (word characters deleted back to the
whitespace boundary, which is kept); a second press deletes back through the
whitespace run and yields `hello`; a third press yields the empty string —
each press following the three-way word-deletion rule of the source. -/
theorem read_line_ctrl_w_presses :
    ReadLine.on_key "hello world".toList (.Ctrl 'w') = "hello ".toList ∧
    ReadLine.on_key "hello ".toList (.Ctrl 'w') = "hello".toList ∧
    ReadLine.on_key "hello".toList (.Ctrl 'w') = ("" : String).toList := by
  decide

/-- Modelled from the spec: the changed-file status enumeration
(`backend.rs` is not under `src/`); the spec lists
`enum{Added,Modified,Deleted,Renamed,Conflicted,...}` with a derived total
order used for the status sort. -/
inductive FileStatus where
  | Added
  | Modified
  | Deleted
  | Renamed
  | Conflicted
  deriving DecidableEq, Repr

/-- Discriminant order of `FileStatus`, the order its derived `Ord` compares by. -/
def statusCode : FileStatus → Nat
  | .Added => 0
  | .Modified => 1
  | .Deleted => 2
  | .Renamed => 3
  | .Conflicted => 4

/-- Modelled from the spec: `RevisionEntry` of `backend.rs` (name plus status). -/
structure RevisionEntry where
  name : String
  status : FileStatus
  deriving DecidableEq, Repr

/-- Modelled from the spec: `SelectableRevisionEntry` of `backend.rs`
(`RevisionEntry` plus local UI selection flag). -/
structure SelectableRevisionEntry where
  name : String
  status : FileStatus
  selected : Bool
  deriving DecidableEq, Repr

/-- Modelled from the spec: `From<RevisionEntry>` for `SelectableRevisionEntry`;
entries arrive deselected ("stale selections never carry over"). -/
def toSelectable (e : RevisionEntry) : SelectableRevisionEntry :=
  ⟨e.name, e.status, false⟩

/-- Modelled from the spec: `RevisionInfo` of `backend.rs`
(revision message plus changed-file entries). -/
structure RevisionInfo where
  message : String
  entries : List RevisionEntry
  deriving DecidableEq, Repr

namespace RevisionDetails

/-- `State` from `src/mode/revision_details.rs`. -/
inductive State where
  | Idle
  | Waiting
  | ViewDiff
  deriving DecidableEq, Repr

/-- `Response` from `src/mode/revision_details.rs`. -/
inductive Response where
  | Info (info : RevisionInfo)
  | Diff (output : String)
  deriving DecidableEq, Repr

/-- `Mode` from `src/mode/revision_details.rs`. -/
structure Mode where
  state : State
  entries : List SelectableRevisionEntry
  output : Output
  select : SelectMenu
  show_full_message : Bool
  deriving DecidableEq, Repr

/-- The toggle-all pass performed by the `SelectMenuAction::ToggleAll` arm of
`Mode::on_key`: if all entries were selected, select none; else select all. -/
def toggle_all (entries : List SelectableRevisionEntry) :
    List SelectableRevisionEntry :=
  let all_selected := entries.all fun e => e.selected
  entries.map fun e => { e with selected := !all_selected }

/-- The comparator of the worker spawned by `Mode::on_enter`:
`a.status.cmp(&b.status)` as a boolean `≤` on the status discriminants. -/
def statusLe (a b : RevisionEntry) : Bool :=
  decide (statusCode a.status ≤ statusCode b.status)

/-- The body of the worker spawned by `Mode::on_enter`
(`src/mode/revision_details.rs`): on backend failure the error text becomes
the message with no entries; the entries are then sorted by status.  (The
source uses `sort_unstable_by`; any deterministic comparison sort realises
the same specification here, since the claims under proof concern sortedness,
content and determinism, not the tie-breaking permutation.) -/
def worker (res : Except String RevisionInfo) : RevisionInfo :=
  let info :=
    match res with
    | .ok info => info
    | .error error => { message := error, entries := [] }
  { info with entries := info.entries.mergeSort statusLe }

/-- `Mode::on_enter` from `src/mode/revision_details.rs`; the boolean reports
whether a worker was spawned.  If the mode is already `Waiting` nothing
happens; otherwise the output is cleared, the selection cursor saturated to 0
and a worker spawned. -/
def Mode.on_enter (m : Mode) : Mode × Bool :=
  match m.state with
  | .Waiting => (m, false)
  | _ =>
      ({ m with
          state := .Waiting,
          output := m.output.set "",
          select := m.select.saturate_cursor 0,
          show_full_message := false }, true)

/-- `Mode::on_key` from `src/mode/revision_details.rs`; the boolean reports
whether a diff worker was spawned.  The `SelectMenuAction::Toggle(i)` arm
indexes `entries[i]`; the Rust indexing panic is modelled by `none`. -/
def Mode.on_key (m : Mode) (available_height : Nat) (key : Key) :
    Option (Mode × Bool) :=
  match m.state with
  | .Idle =>
      let p := m.select.on_key m.entries.length available_height key
      let m1 := { m with select := p.1 }
      let m2? : Option Mode :=
        match p.2 with
        | .None => some m1
        | .Toggle i =>
            match m1.entries[i]? with
            | some e =>
                some { m1 with entries := m1.entries.set i { e with selected := !e.selected } }
            | none => none
        | .ToggleAll => some { m1 with entries := toggle_all m1.entries }
      match m2? with
      | none => none
      | some m2 =>
          match key with
          | .Tab => some ({ m2 with show_full_message := !m2.show_full_message }, false)
          | .Char 'd' =>
              if m2.entries.isEmpty then some (m2, false)
              else some ({ m2 with state := .ViewDiff, output := m2.output.set "" }, true)
          | _ => some (m2, false)
  | .ViewDiff => some ({ m with output := m.output.on_key available_height key }, false)
  | .Waiting => some (m, false)

/-- `Mode::on_response` from `src/mode/revision_details.rs`: an `Info`
response moves `Waiting` to `Idle`, sets the output when the state is then
`Idle`, and unconditionally replaces the entries and re-clamps the selection;
a `Diff` response sets the output only in `ViewDiff`. -/
def Mode.on_response (m : Mode) (r : Response) : Mode :=
  match r with
  | .Info info =>
      let m := if m.state = .Waiting then { m with state := State.Idle } else m
      let m := if m.state = .Idle then { m with output := m.output.set info.message } else m
      let entries := info.entries.map toSelectable
      { m with entries := entries, select := m.select.saturate_cursor entries.length }
  | .Diff output =>
      match m.state with
      | .ViewDiff => { m with output := m.output.set output }
      | _ => m

end RevisionDetails

open RevisionDetails

theorem all_selected_uniform (e0 : SelectableRevisionEntry)
    (rest : List SelectableRevisionEntry) (a : Bool)
    (h : ∀ e ∈ e0 :: rest, e.selected = a) :
    (e0 :: rest).all (fun e => e.selected) = a := by
  cases a
  · simp only [List.all_cons, h e0 (List.mem_cons_self e0 rest), Bool.false_and]
  · rw [List.all_eq_true]
    exact h

/-- C7: toggle-all is an involution on uniformly-selected entry lists:
if every entry shares the same `selected` value, applying the toggle-all pass
of `Mode::on_key` twice restores the original list. -/
theorem toggle_all_involutive (l : List SelectableRevisionEntry) (a : Bool)
    (h : ∀ e ∈ l, e.selected = a) :
    toggle_all (toggle_all l) = l := by
  rcases l with _ | ⟨e0, rest⟩
  · rfl
  · have hA : (e0 :: rest).all (fun e => e.selected) = a :=
      all_selected_uniform e0 rest a h
    simp only [toggle_all, hA, List.all_map, List.map_map]
    have hA2 : (e0 :: rest).all
        ((fun e => e.selected) ∘ fun e => { e with selected := !a }) = !a := by
      cases a <;> simp [Function.comp]
    rw [hA2]
    simp only [Bool.not_not, Function.comp]
    refine (List.map_congr_left ?_).trans (List.map_id _)
    intro e he
    have hsel := h e he
    cases e
    simp_all

/-- C7 witness: the involution applied to a concrete uniformly-selected list. -/
theorem toggle_all_involutive_witness :
    toggle_all (toggle_all [⟨"a.txt", .Added, true⟩, ⟨"b.txt", .Deleted, true⟩]) =
      [⟨"a.txt", .Added, true⟩, ⟨"b.txt", .Deleted, true⟩] :=
  toggle_all_involutive _ true (by decide)

theorem select_menu_toggle_lt (m : SelectMenu) (n h : Nat) (k : Key) (i : Nat)
    (ha : (m.on_key n h k).2 = .Toggle i) : i < n := by
  simp only [SelectMenu.on_key] at ha
  split at ha
  · split at ha
    · rename_i hlt
      injection ha with h'
      omega
    · exact SelectMenuAction.noConfusion ha
  · exact SelectMenuAction.noConfusion ha
  · exact SelectMenuAction.noConfusion ha

theorem mode_on_key_isSome (m : Mode) (h : Nat) (k : Key) :
    (Mode.on_key m h k).isSome = true := by
  unfold Mode.on_key
  split
  · dsimp only
    split
    · rename_i heq
      split at heq
      · exact Option.noConfusion heq
      · rename_i i hact
        split at heq
        · exact Option.noConfusion heq
        · rename_i hnone
          have hi : i < m.entries.length :=
            select_menu_toggle_lt m.select m.entries.length h k i hact
          rw [List.getElem?_eq_getElem hi] at hnone
          exact Option.noConfusion hnone
      · exact Option.noConfusion heq
    · split
      · rfl
      · split <;> rfl
      · rfl
  · rfl
  · rfl

/-- C9: `SelectMenu::on_key` only ever reports `Toggle(i)` with `i` strictly
below the entries length, so the `entries[i]` indexing performed by the
`Toggle` arm of the RevisionDetails `Mode::on_key` is always in bounds and
never panics (the panic is modelled by `none`, which is never returned). -/
theorem select_menu_toggle_in_bounds :
    (∀ (m : SelectMenu) (n h : Nat) (k : Key) (i : Nat),
        (m.on_key n h k).2 = .Toggle i → i < n) ∧
    (∀ (m : Mode) (h : Nat) (k : Key), (Mode.on_key m h k).isSome = true) :=
  ⟨select_menu_toggle_lt, mode_on_key_isSome⟩

/-- C9 witness: the bound applied at a concrete menu where space reports
`Toggle 0` on a one-entry list, and totality at a concrete mode. -/
theorem select_menu_toggle_in_bounds_witness :
    0 < 1 ∧
    (Mode.on_key ⟨.Idle, [⟨"a", .Added, false⟩], ⟨"", 0, 0⟩, ⟨0, 0⟩, false⟩
        5 (.Char ' ')).isSome = true :=
  ⟨select_menu_toggle_in_bounds.1 ⟨0, 0⟩ 1 5 (.Char ' ') 0 (by decide),
    select_menu_toggle_in_bounds.2 _ 5 (.Char ' ')⟩

/-- A mode sitting in `ViewDiff` (it has left the `Waiting` state that
requested the revision info) with a non-empty, selected entry list. -/
def staleMode : Mode :=
  ⟨.ViewDiff, [⟨"file.txt", .Modified, true⟩], ⟨"old diff", 1, 0⟩, ⟨0, 0⟩, false⟩

/-- C1 counterexample: an `Info` response delivered while the mode is in
`ViewDiff` — a state that did not request it — still overwrites the entries
(and thereby the selection): the stale response is not dropped. -/
theorem stale_info_overwrites_entries :
    staleMode.state = .ViewDiff ∧
    (staleMode.on_response (.Info ⟨"msg", []⟩)).entries ≠ staleMode.entries ∧
    (staleMode.on_response (.Info ⟨"msg", []⟩)).entries = [] := by
  decide

/-- C1 (amended): a `Diff` response is applied only if the mode is still in
`ViewDiff` (a stale `Diff` is dropped without any effect); an `Info`
completion always clears `Waiting` (to `Idle`) and sets the output only when
the resulting state is `Idle`, but it always overwrites the entries (rebuilt
deselected) and re-clamps the selection cursor, even when the mode has since
left the state that requested it. -/
theorem on_response_characterization
    (m : Mode) (info : RevisionInfo) (out : String) :
    (m.state ≠ .ViewDiff → m.on_response (.Diff out) = m) ∧
    (m.state = .ViewDiff →
      m.on_response (.Diff out) = { m with output := m.output.set out }) ∧
    ((m.on_response (.Info info)).state =
      if m.state = .Waiting then .Idle else m.state) ∧
    ((m.on_response (.Info info)).entries = info.entries.map toSelectable) ∧
    ((m.on_response (.Info info)).select =
      m.select.saturate_cursor (info.entries.map toSelectable).length) ∧
    (m.state = .ViewDiff → (m.on_response (.Info info)).output = m.output) ∧
    ((m.state = .Waiting ∨ m.state = .Idle) →
      (m.on_response (.Info info)).output = m.output.set info.message) := by
  obtain ⟨s, es, o, sel, f⟩ := m
  cases s <;> simp [Mode.on_response]

/-- C1 witness: the characterization applied at concrete modes, discharging
the state hypotheses: a stale `Diff` in `Idle` is dropped, a live `Diff` in
`ViewDiff` is applied, a stale `Info` in `ViewDiff` leaves the output alone,
and an `Info` in `Waiting` sets the output. -/
theorem on_response_characterization_witness :
    ((⟨.Idle, [], ⟨"t", 1, 0⟩, ⟨0, 0⟩, false⟩ : Mode).on_response (.Diff "new") =
      ⟨.Idle, [], ⟨"t", 1, 0⟩, ⟨0, 0⟩, false⟩) ∧
    (staleMode.on_response (.Diff "new") =
      { staleMode with output := staleMode.output.set "new" }) ∧
    ((staleMode.on_response (.Info ⟨"m", []⟩)).output = staleMode.output) ∧
    ((⟨.Waiting, [], ⟨"t", 1, 0⟩, ⟨0, 0⟩, false⟩ : Mode).on_response
        (.Info ⟨"m", []⟩)).output = (⟨"t", 1, 0⟩ : Output).set "m" := by
  refine ⟨?_, ?_, ?_, ?_⟩
  · exact (on_response_characterization _ ⟨"m", []⟩ "new").1 (by decide)
  · exact (on_response_characterization staleMode ⟨"m", []⟩ "new").2.1 rfl
  · exact (on_response_characterization staleMode ⟨"m", []⟩ "new").2.2.2.2.2.1 rfl
  · exact (on_response_characterization _ ⟨"m", []⟩ "new").2.2.2.2.2.2 (Or.inl rfl)

/-- A concrete successful backend response with entries out of status order. -/
def res0 : Except String RevisionInfo :=
  .ok ⟨"msg", [⟨"b", .Deleted⟩, ⟨"a", .Added⟩]⟩

/-- C4: `Mode::on_enter` is a no-op while already `Waiting` (no second worker
spawned, no field changed); otherwise it clears the output, resets the
selection cursor, moves to `Waiting` and spawns a worker whose returned file
entries are sorted by status; the worker's post-processing is a pure function
of the backend result, so identical backend inputs always produce the same
displayed order. -/
theorem on_enter_spec (m : Mode) (res : Except String RevisionInfo) :
    (m.state = .Waiting → m.on_enter = (m, false)) ∧
    (m.state ≠ .Waiting →
      m.on_enter.2 = true ∧
      m.on_enter.1.state = .Waiting ∧
      m.on_enter.1.output.text = "" ∧
      m.on_enter.1.output.scroll = 0 ∧
      m.on_enter.1.select.cursor = 0 ∧
      m.on_enter.1.show_full_message = false) ∧
    (worker res).entries.Sorted (fun a b => statusCode a.status ≤ statusCode b.status) ∧
    (worker res).entries.Perm
      (match res with | .ok info => info.entries | .error _ => []) ∧
    (∀ res2, res = res2 → worker res = worker res2) := by
  refine ⟨?_, ?_, ?_, ?_, fun res2 h => h ▸ rfl⟩
  · intro hw
    obtain ⟨s, es, o, sel, f⟩ := m
    cases s <;> simp_all [Mode.on_enter]
  · intro hw
    obtain ⟨s, es, o, sel, f⟩ := m
    cases s <;>
      simp_all [Mode.on_enter, Output.set, SelectMenu.saturate_cursor, rustLineCount]
  · have hs := @List.sorted_mergeSort RevisionEntry statusLe
      (fun a b c hab hbc => by
        simp only [statusLe, decide_eq_true_eq] at *
        omega)
      (fun a b => by
        simp only [statusLe, Bool.or_eq_true, decide_eq_true_eq]
        omega)
      (match res with | .ok info => info.entries | .error _ => [])
    have : (worker res).entries =
        (match res with | .ok info => info.entries | .error _ => []).mergeSort statusLe := by
      rcases res <;> rfl
    rw [List.Sorted, this]
    exact hs.imp fun hab => by
      simpa [statusLe, decide_eq_true_eq] using hab
  · have : (worker res).entries =
        (match res with | .ok info => info.entries | .error _ => []).mergeSort statusLe := by
      rcases res <;> rfl
    rw [this]
    exact List.mergeSort_perm _ _

/-- C4 witness: the spec applied at a concrete `Waiting` mode (no-op), at a
concrete `Idle` mode (spawn with cleared output and cursor), and at a
concrete backend result delivered out of status order. -/
theorem on_enter_spec_witness :
    ((⟨.Waiting, [], ⟨"t", 1, 2⟩, ⟨3, 0⟩, true⟩ : Mode).on_enter =
      (⟨.Waiting, [], ⟨"t", 1, 2⟩, ⟨3, 0⟩, true⟩, false)) ∧
    (⟨.Idle, [], ⟨"t", 1, 2⟩, ⟨3, 0⟩, true⟩ : Mode).on_enter.2 = true ∧
    (worker res0).entries.Sorted (fun a b => statusCode a.status ≤ statusCode b.status) ∧
    (worker res0).entries.Perm [⟨"b", .Deleted⟩, ⟨"a", .Added⟩] := by
  refine ⟨?_, ?_, ?_, ?_⟩
  · exact (on_enter_spec ⟨.Waiting, [], ⟨"t", 1, 2⟩, ⟨3, 0⟩, true⟩ res0).1 rfl
  · exact ((on_enter_spec ⟨.Idle, [], ⟨"t", 1, 2⟩, ⟨3, 0⟩, true⟩ res0).2.1 (by decide)).1
  · exact (on_enter_spec staleMode res0).2.2.1
  · exact (on_enter_spec staleMode res0).2.2.2.1

/-- The operations invokable from `Tui::handle_command` (`src/tui.rs`); the
source dispatches to inline branches, each invoking one backend call — the
enumeration names those branches. -/
inductive Action where
  | Help
  | Status
  | Log
  | RevisionDiff
  | RevisionChanges
  | CommitAll
  | CommitSelected
  | Update
  | Merge
  | RevertAll
  | RevertSelected
  | Conflicts
  | TakeOther
  | TakeLocal
  | Fetch
  | Pull
  | Push
  | NewTag
  | ListBranches
  | NewBranch
  | DeleteBranch
  | CustomCommand
  deriving DecidableEq, Repr

/-- `HandleChordResult` from `src/tui.rs`, with `Handled` carrying the
operation the chord resolved to (`none` for the silent no-match arm). -/
inductive HandleChordResult where
  | Handled (action : Option Action)
  | Unhandled
  | Quit
  deriving DecidableEq, Repr

/-- `Tui::handle_command` from `src/tui.rs`: the accumulated chord is matched
against the literal slice patterns of the source's `match`.  A Rust `match`
over literal slice patterns is a first-match sequence of equality tests, so
it is embedded as the corresponding chain of equality tests, in source
order (the or-pattern `['R', 'a'] | ['R', 'A']` becomes a disjunction). -/
def handle_command (chord : List Char) : HandleChordResult :=
  if chord = ['q'] then .Quit
  else if chord = ['h'] then .Handled (some .Help)
  else if chord = ['s'] then .Handled (some .Status)
  else if chord = ['l'] then .Unhandled
  else if chord = ['l', 'l'] then .Handled (some .Log)
  else if chord = ['d'] then .Unhandled
  else if chord = ['d', 'd'] then .Handled (some .RevisionDiff)
  else if chord = ['d', 'c'] then .Handled (some .RevisionChanges)
  else if chord = ['c'] then .Unhandled
  else if chord = ['c', 'c'] then .Handled (some .CommitAll)
  else if chord = ['c', 's'] then .Handled (some .CommitSelected)
  else if chord = ['u'] then .Handled (some .Update)
  else if chord = ['m'] then .Handled (some .Merge)
  else if chord = ['R'] then .Unhandled
  else if chord = ['R', 'a'] ∨ chord = ['R', 'A'] then .Handled (some .RevertAll)
  else if chord = ['r'] then .Unhandled
  else if chord = ['r', 's'] then .Handled (some .RevertSelected)
  else if chord = ['r', 'r'] then .Handled (some .Conflicts)
  else if chord = ['r', 'o'] then .Handled (some .TakeOther)
  else if chord = ['r', 'l'] then .Handled (some .TakeLocal)
  else if chord = ['f'] then .Handled (some .Fetch)
  else if chord = ['p'] then .Handled (some .Pull)
  else if chord = ['P'] then .Handled (some .Push)
  else if chord = ['t'] then .Unhandled
  else if chord = ['t', 'n'] then .Handled (some .NewTag)
  else if chord = ['b'] then .Unhandled
  else if chord = ['b', 'b'] then .Handled (some .ListBranches)
  else if chord = ['b', 'n'] then .Handled (some .NewBranch)
  else if chord = ['b', 'd'] then .Handled (some .DeleteBranch)
  else if chord = ['x'] then .Handled (some .CustomCommand)
  else .Handled none

/-- The dispatch table of `src/tui.rs` as published by its help screen
(`Tui::show_help`): chord spelling paired with the operation it names
(`q`, resolving to quit rather than to an operation, is handled separately). -/
def dispatch_table : List (List Char × Action) :=
  [ (['h'], .Help)
  , (['s'], .Status)
  , (['l', 'l'], .Log)
  , (['d', 'd'], .RevisionDiff)
  , (['d', 'c'], .RevisionChanges)
  , (['c', 'c'], .CommitAll)
  , (['c', 's'], .CommitSelected)
  , (['u'], .Update)
  , (['m'], .Merge)
  , (['R', 'A'], .RevertAll)
  , (['r', 's'], .RevertSelected)
  , (['r', 'r'], .Conflicts)
  , (['r', 'o'], .TakeOther)
  , (['r', 'l'], .TakeLocal)
  , (['f'], .Fetch)
  , (['p'], .Pull)
  , (['P'], .Push)
  , (['t', 'n'], .NewTag)
  , (['b', 'b'], .ListBranches)
  , (['b', 'n'], .NewBranch)
  , (['b', 'd'], .DeleteBranch)
  , (['x'], .CustomCommand) ]

/-- C5 counterexample: the mixed-case chord `R`,`a` — which is not equal
character-for-character to the published revert-all chord `R`,`A` and
contains a lowercase character — nevertheless resolves to the revert-all
entry, so chord matching is not the claimed exact character-for-character
relation. -/
theorem chord_case_folding_counterexample :
    handle_command ['R', 'a'] = .Handled (some .RevertAll) ∧
    (['R', 'a'], Action.RevertAll) ∉ dispatch_table ∧
    ['R', 'a'] ≠ ['R', 'A'] := by
  decide

theorem mem_of_entry (chord : List Char) (a b : Action)
    (hc : (chord, b) ∈ dispatch_table)
    (h : HandleChordResult.Handled (some b) = .Handled (some a)) :
    (chord, a) ∈ dispatch_table ∨ (chord = ['R', 'a'] ∧ a = .RevertAll) := by
  injection h with h'
  injection h' with h''
  subst h''
  exact Or.inl hc

set_option maxHeartbeats 1600000 in
/-- C5 (amended): chord resolution in `Tui::handle_command` is exact and
case sensitive — a chord resolves to an operation iff it equals a
dispatch-table spelling character for character — with the single exception
that revert-all additionally accepts the mixed-case alias `R`,`a` besides its
published spelling `R`,`A`. -/
theorem handle_command_exact_match (chord : List Char) (a : Action) :
    handle_command chord = .Handled (some a) ↔
      ((chord, a) ∈ dispatch_table ∨ (chord = ['R', 'a'] ∧ a = .RevertAll)) := by
  constructor
  · intro h
    unfold handle_command at h
    by_cases hc : chord = ['q']
    · rw [if_pos hc] at h
      exact HandleChordResult.noConfusion h
    rw [if_neg hc] at h
    by_cases hc : chord = ['h']
    · rw [if_pos hc] at h
      subst hc
      exact mem_of_entry _ a _ (by decide) h
    rw [if_neg hc] at h
    by_cases hc : chord = ['s']
    · rw [if_pos hc] at h
      subst hc
      exact mem_of_entry _ a _ (by decide) h
    rw [if_neg hc] at h
    by_cases hc : chord = ['l']
    · rw [if_pos hc] at h
      exact HandleChordResult.noConfusion h
    rw [if_neg hc] at h
    by_cases hc : chord = ['l', 'l']
    · rw [if_pos hc] at h
      subst hc
      exact mem_of_entry _ a _ (by decide) h
    rw [if_neg hc] at h
    by_cases hc : chord = ['d']
    · rw [if_pos hc] at h
      exact HandleChordResult.noConfusion h
    rw [if_neg hc] at h
    by_cases hc : chord = ['d', 'd']
    · rw [if_pos hc] at h
      subst hc
      exact mem_of_entry _ a _ (by decide) h
    rw [if_neg hc] at h
    by_cases hc : chord = ['d', 'c']
    · rw [if_pos hc] at h
      subst hc
      exact mem_of_entry _ a _ (by decide) h
    rw [if_neg hc] at h
    by_cases hc : chord = ['c']
    · rw [if_pos hc] at h
      exact HandleChordResult.noConfusion h
    rw [if_neg hc] at h
    by_cases hc : chord = ['c', 'c']
    · rw [if_pos hc] at h
      subst hc
      exact mem_of_entry _ a _ (by decide) h
    rw [if_neg hc] at h
    by_cases hc : chord = ['c', 's']
    · rw [if_pos hc] at h
      subst hc
      exact mem_of_entry _ a _ (by decide) h
    rw [if_neg hc] at h
    by_cases hc : chord = ['u']
    · rw [if_pos hc] at h
      subst hc
      exact mem_of_entry _ a _ (by decide) h
    rw [if_neg hc] at h
    by_cases hc : chord = ['m']
    · rw [if_pos hc] at h
      subst hc
      exact mem_of_entry _ a _ (by decide) h
    rw [if_neg hc] at h
    by_cases hc : chord = ['R']
    · rw [if_pos hc] at h
      exact HandleChordResult.noConfusion h
    rw [if_neg hc] at h
    by_cases hc : chord = ['R', 'a'] ∨ chord = ['R', 'A']
    · rw [if_pos hc] at h
      rcases hc with rfl | rfl
      · injection h with h'
        injection h' with h''
        subst h''
        exact Or.inr ⟨rfl, rfl⟩
      · exact mem_of_entry _ a _ (by decide) h
    rw [if_neg hc] at h
    by_cases hc : chord = ['r']
    · rw [if_pos hc] at h
      exact HandleChordResult.noConfusion h
    rw [if_neg hc] at h
    by_cases hc : chord = ['r', 's']
    · rw [if_pos hc] at h
      subst hc
      exact mem_of_entry _ a _ (by decide) h
    rw [if_neg hc] at h
    by_cases hc : chord = ['r', 'r']
    · rw [if_pos hc] at h
      subst hc
      exact mem_of_entry _ a _ (by decide) h
    rw [if_neg hc] at h
    by_cases hc : chord = ['r', 'o']
    · rw [if_pos hc] at h
      subst hc
      exact mem_of_entry _ a _ (by decide) h
    rw [if_neg hc] at h
    by_cases hc : chord = ['r', 'l']
    · rw [if_pos hc] at h
      subst hc
      exact mem_of_entry _ a _ (by decide) h
    rw [if_neg hc] at h
    by_cases hc : chord = ['f']
    · rw [if_pos hc] at h
      subst hc
      exact mem_of_entry _ a _ (by decide) h
    rw [if_neg hc] at h
    by_cases hc : chord = ['p']
    · rw [if_pos hc] at h
      subst hc
      exact mem_of_entry _ a _ (by decide) h
    rw [if_neg hc] at h
    by_cases hc : chord = ['P']
    · rw [if_pos hc] at h
      subst hc
      exact mem_of_entry _ a _ (by decide) h
    rw [if_neg hc] at h
    by_cases hc : chord = ['t']
    · rw [if_pos hc] at h
      exact HandleChordResult.noConfusion h
    rw [if_neg hc] at h
    by_cases hc : chord = ['t', 'n']
    · rw [if_pos hc] at h
      subst hc
      exact mem_of_entry _ a _ (by decide) h
    rw [if_neg hc] at h
    by_cases hc : chord = ['b']
    · rw [if_pos hc] at h
      exact HandleChordResult.noConfusion h
    rw [if_neg hc] at h
    by_cases hc : chord = ['b', 'b']
    · rw [if_pos hc] at h
      subst hc
      exact mem_of_entry _ a _ (by decide) h
    rw [if_neg hc] at h
    by_cases hc : chord = ['b', 'n']
    · rw [if_pos hc] at h
      subst hc
      exact mem_of_entry _ a _ (by decide) h
    rw [if_neg hc] at h
    by_cases hc : chord = ['b', 'd']
    · rw [if_pos hc] at h
      subst hc
      exact mem_of_entry _ a _ (by decide) h
    rw [if_neg hc] at h
    by_cases hc : chord = ['x']
    · rw [if_pos hc] at h
      subst hc
      exact mem_of_entry _ a _ (by decide) h
    rw [if_neg hc] at h
    injection h with h'
    exact Option.noConfusion h'
  · intro h
    have htab : ∀ p ∈ dispatch_table, handle_command p.1 = .Handled (some p.2) := by
      decide
    rcases h with hmem | ⟨rfl, rfl⟩
    · exact htab (chord, a) hmem
    · rfl

/-- `ActionKind` of the old front end (`old/tui.rs` usage; `action.rs` itself
is not under `src/`, so the enumeration is modelled from the spec's closed
operation list and the kinds dispatched by `Tui::handle_key_chord`). -/
inductive ActionKind where
  | Help
  | Quit
  | Status
  | Log
  | LogCount
  | CurrentFullRevision
  | CurrentDiffAll
  | CurrentDiffSelected
  | RevisionChanges
  | RevisionDiffAll
  | RevisionDiffSelected
  | CommitAll
  | CommitSelected
  | Update
  | Merge
  | RevertAll
  | RevertSelected
  | UnresolvedConflicts
  | MergeTakingOther
  | MergeTakingLocal
  | Fetch
  | Pull
  | Push
  | NewTag
  | ListBranches
  | NewBranch
  | DeleteBranch
  | CustomAction
  deriving DecidableEq, Repr

/-- Modelled from the spec: `ActionResult` (`action.rs` is not under `src/`):
a success flag plus the output text. -/
structure ActionResult where
  success : Bool
  output : String
  deriving DecidableEq, Repr

/-- Header band styles of the old front end (`tui_util.rs` usage). -/
inductive HeaderKind where
  | Ok
  | Error
  | Waiting
  deriving DecidableEq, Repr

/-- The state of the old `Tui` relevant to prompt handling
(`old/tui.rs`): the previous and current action kinds plus the per-kind
result cache read through `get_cached_action_result`. -/
structure TuiState where
  previous_action_kind : ActionKind
  current_action_kind : ActionKind
  cache : ActionKind → ActionResult

/-- `Tui::handle_input` from `old/tui.rs`: the raw `read_line` outcome is
mapped to `Some(line)` only when reading succeeded and the line is non-empty;
a read error (the Ctrl-c cancellation path) or an empty submission yields
`None`. -/
def handle_input (raw : Except Unit String) : Option String :=
  match raw with
  | .ok line => if line.length > 0 then some line else none
  | .error _ => none

/-- Header choice of `Tui::show_result` from `old/tui.rs`: waiting if a
worker of the current kind is pending, else ok/error by the result flag. -/
def show_result_header (pending : Bool) (r : ActionResult) : HeaderKind :=
  if pending then .Waiting else if r.success then .Ok else .Error

/-- The `['c', 'c']` (commit-all) chord branch of `Tui::handle_key_chord`
from `old/tui.rs`, through `action_context`: previous := current, current :=
CommitAll; then either the trimmed commit message is sent to the backend and
the (cached) CommitAll result shown, or — when the prompt was cancelled or
empty — no command is invoked, the current kind reverts to the previous one
and its cached result is shown again.  Returns the state, the message handed
to `commit_all` (if any) and the result displayed. -/
def commit_all_chord (s : TuiState) (raw : Except Unit String) :
    TuiState × Option String × ActionResult :=
  let s1 : TuiState :=
    { s with
        previous_action_kind := s.current_action_kind,
        current_action_kind := ActionKind.CommitAll }
  match handle_input raw with
  | some input => (s1, some input.trim, s1.cache ActionKind.CommitAll)
  | none =>
      let s2 : TuiState := { s1 with current_action_kind := s1.previous_action_kind }
      (s2, none, s2.cache s2.current_action_kind)

/-- C8: when the user cancels the commit-all prompt (read error) or submits
an empty line, `handle_input` yields `None`: no backend command is invoked,
the previously shown action's cached result is redisplayed, and the header
drawn for it reflects only that cached result's own success flag — the
cancellation is not rendered as an error. -/
theorem input_cancelled_no_operation (s : TuiState) (raw : Except Unit String)
    (hcancel : handle_input raw = none) :
    (commit_all_chord s raw).2.1 = none ∧
    (commit_all_chord s raw).1.current_action_kind = s.current_action_kind ∧
    (commit_all_chord s raw).2.2 = s.cache s.current_action_kind ∧
    show_result_header false (commit_all_chord s raw).2.2 =
      (if (s.cache s.current_action_kind).success then .Ok else .Error) := by
  simp [commit_all_chord, hcancel, show_result_header]

/-- C8 witness: the cancellation theorem applied at a concrete state whose
prior (Status) result succeeded, with a cancelled prompt: nothing is invoked,
the Status result is redisplayed and its header is `Ok`. -/
theorem input_cancelled_no_operation_witness :
    (commit_all_chord
        ⟨.Help, .Status, fun _ => ⟨true, "clean"⟩⟩ (.error ())).2.1 = none ∧
    (commit_all_chord
        ⟨.Help, .Status, fun _ => ⟨true, "clean"⟩⟩ (.error ())).1.current_action_kind =
      .Status ∧
    (commit_all_chord
        ⟨.Help, .Status, fun _ => ⟨true, "clean"⟩⟩ (.error ())).2.2 = ⟨true, "clean"⟩ ∧
    show_result_header false
        (commit_all_chord ⟨.Help, .Status, fun _ => ⟨true, "clean"⟩⟩ (.error ())).2.2 =
      .Ok := by
  have h := input_cancelled_no_operation
    ⟨.Help, .Status, fun _ => ⟨true, "clean"⟩⟩ (.error ()) rfl
  exact ⟨h.1, h.2.1, h.2.2.1, h.2.2.2⟩

end Verco
